import Mathlib

/-!
Verification development for the `dataset` module of a TFRecord-style
record-container library (`src/dataset.rs`).

The module builds a flat record index over a list of container files
(`DatasetInit::from_paths`), then serves random access (`Dataset::get`),
lazy streaming (`Dataset::stream`), handle cloning (`impl Clone for
Dataset`) and a single-slot open-file cache (`Dataset::open_file`), all
under an optional open-file semaphore.

The low-level framed I/O primitives (`crate::io::async_::try_read_len`,
`crate::io::async_::try_read_record_data`) are not part of the sources;
they are modelled from the spec (section 4.1 / 6: a frame is an 8-byte
length field plus opaque integrity-check fields, then the payload, then
an opaque integrity-check field).  A container file is modelled as a
list of frames plus a flag saying whether garbage (a frame that starts
but cannot complete) follows the last full frame.
-/

deriving instance DecidableEq for Except

/-- Errors surfaced by the dataset module: file-system failures,
frame corruption (truncated frame or checksum mismatch when checked),
and codec failures from the external record decoder. -/
inductive Error where
  | ioError
  | corruption
  | decodeError
deriving DecidableEq, Repr

/-- One frame of a container file.  `payload` is the record's bytes
(modelled as naturals).  `lenOk` and `dataOk` say whether the opaque
integrity-check fields bracketing the length field and the payload are
valid; they are consulted only by checked reads. -/
structure Frame where
  payload : List Nat
  lenOk : Bool
  dataOk : Bool
deriving DecidableEq, Repr

/-- Modelled from the spec: bytes consumed by reading a frame's length
field together with its bracketing integrity-check field.  The exact
encoding is opaque to the core; only the size matters for offsets. -/
def headerSize : Nat := 12

/-- Modelled from the spec: bytes of the integrity-check field that
follows the payload.  Opaque encoding; only the size matters. -/
def footerSize : Nat := 4

/-- Total on-disk size of one frame. -/
def frameSize (fr : Frame) : Nat := headerSize + fr.payload.length + footerSize

/-- A container file: its frames in on-disk order, and whether a frame
that starts but cannot be completed follows the last full frame
(`truncated = true` means the scan ends in corruption, not clean EOF). -/
structure FileModel where
  frames : List Frame
  truncated : Bool
deriving DecidableEq, Repr

/-- On-disk bytes of one frame: opaque header bytes, the payload, opaque
footer bytes.  The integrity flags do not change the byte image
(checksums are opaque placeholders). -/
def frameBytes (fr : Frame) : List Nat :=
  List.replicate headerSize 0 ++ fr.payload ++ List.replicate footerSize 0

/-- On-disk bytes of a container file; a truncated file carries some
trailing bytes that do not form a complete frame. -/
def fileBytes (f : FileModel) : List Nat :=
  (f.frames.map frameBytes).flatten ++ (if f.truncated then List.replicate 3 0 else [])

/-- Byte position where frame `i` starts. -/
def frameStart (frames : List Frame) (i : Nat) : Nat :=
  ((frames.take i).map frameSize).sum

/-- Modelled from the spec: `read_frame_length(checked) -> Option<u64>`
(`crate::io::async_::try_read_len`).  At a frame boundary at byte
position `pos` with `frames` remaining: end of container yields `none`
(or a corruption error when garbage follows); otherwise the frame's
length is returned and the position advances past the length field.
A corrupt length field is an error only when `check` is set. -/
def try_read_len (pos : Nat) (frames : List Frame) (trunc : Bool) (check : Bool) :
    Except Error (Option (Nat × Nat)) :=
  match frames with
  | [] => if trunc then .error .corruption else .ok none
  | fr :: _ =>
    if check && !fr.lenOk then .error .corruption
    else .ok (some (fr.payload.length, pos + headerSize))

/-- Modelled from the spec: `read_frame_payload(len, checked) -> bytes`
(`crate::io::async_::try_read_record_data`) in its sequential use: the
current frame's payload is returned and the position advances past the
payload and its trailing integrity field.  A corrupt payload checksum is
an error only when `check` is set. -/
def try_read_record_data (pos : Nat) (frames : List Frame) (len : Nat) (check : Bool) :
    Except Error (List Nat × Nat) :=
  match frames with
  | [] => .error .corruption
  | fr :: _ =>
    if check && !fr.dataOk then .error .corruption
    else .ok (fr.payload, pos + len + footerSize)

/-- Embedding of `record_index_stream` (src/dataset.rs lines 217-241)
driven to exhaustion: repeatedly read a frame length (`None` ends the
scan cleanly), record `(offset, len)` where `offset` is the position
after the length field (`reader.seek(SeekFrom::Current(0))`), read the
payload, and continue.  The stream state's remaining-frames component is
carried as the structural recursion argument: `try_read_record_data`
consumes exactly the head frame. -/
def record_index_collect (check trunc : Bool) : List Frame → Nat → Except Error (List (Nat × Nat))
  | frames, pos =>
    match frames, try_read_len pos frames trunc check with
    | _, .error e => .error e
    | _, .ok none => .ok []
    | [], .ok (some _) => .ok []
    | _fr :: rest, .ok (some (len, pos1)) =>
      match try_read_record_data pos1 (_fr :: rest) len check with
      | .error e => .error e
      | .ok (_, pos2) => (record_index_collect check trunc rest pos2).map ((pos1, len) :: ·)

/-- Specification-side locator list of a frame sequence starting at byte
position `pos`: for each frame, the payload offset (position just past
the length field) and the payload length, in on-disk order. -/
def locators : List Frame → Nat → List (Nat × Nat)
  | [], _ => []
  | fr :: rest, pos => (pos + headerSize, fr.payload.length) :: locators rest (pos + frameSize fr)

/-- Paths are opaque identifiers (the code uses `PathBuf`; only equality
is ever consulted). -/
abbrev FPath := Nat

/-- A file system: which container file (if any) each path opens to.
`none` models `File::open` failing with an I/O error. -/
abbrev FS := FPath → Option FileModel

/-- One record locator (the code's `RecordIndex` struct,
src/dataset.rs lines 16-21): container path, payload byte offset,
payload length. -/
structure RecordIndex where
  path : FPath
  offset : Nat
  len : Nat
deriving DecidableEq, Repr

/-- Build options (src/dataset.rs lines 23-28).  `max_open_files` and
`max_workers` model `Option<NonZeroUsize>` as optional naturals. -/
structure DatasetInit where
  check_integrity : Bool
  max_open_files : Option Nat
  max_workers : Option Nat
deriving DecidableEq, Repr

/-- Default build options (src/dataset.rs lines 30-38). -/
instance : Inhabited DatasetInit := ⟨{ check_integrity := true, max_open_files := none, max_workers := none }⟩

/-- Modelled from the spec: `num_cpus::get()`, the host's available
parallelism.  Its value never affects the index contents. -/
def num_cpus : Nat := 4

/-- One per-path indexing task (the async closure of
src/dataset.rs lines 63-95): open the path, scan it with
`record_index_stream`, and attach the path to each `(offset, len)`
pair. -/
def scan_path (fs : FS) (check : Bool) (path : FPath) : Except Error (List RecordIndex) :=
  match fs path with
  | none => .error .ioError
  | some f =>
    (record_index_collect check f.truncated f.frames 0).map
      (List.map fun pl => { path := path, offset := pl.1, len := pl.2 })

/-- The collection phase of `from_paths` (src/dataset.rs lines 100-110):
the buffered futures yield per-path streams in input-path order, the
streams are flattened in that order, and `try_collect` concatenates
their items, aborting at the first error in stream order. -/
def collect_indexes (fs : FS) (check : Bool) : List FPath → Except Error (List RecordIndex)
  | [] => .ok []
  | p :: rest =>
    match scan_path fs check p with
    | .error e => .error e
    | .ok head => (collect_indexes fs check rest).map (head ++ ·)

/-- Shared immutable state of a dataset (src/dataset.rs lines 128-133).
`open_file_semaphore` keeps the configured capacity
(`Some(Arc::new(Semaphore::new(num)))`). -/
structure DatasetState where
  record_indexes : List RecordIndex
  max_workers : Nat
  open_file_semaphore : Option Nat
deriving DecidableEq, Repr

/-- A handle's cached open file: the path, the reader
(`BufReader<File>`: file contents plus current byte position), and
whether a semaphore permit is held (`Option<OwnedSemaphorePermit>`). -/
structure OpenFile where
  path : FPath
  reader : FileModel × Nat
  permit : Bool
deriving DecidableEq, Repr

/-- A dataset handle (src/dataset.rs lines 135-139): shared state plus
the private single-slot open-file cache. -/
structure Dataset where
  state : DatasetState
  open_file : Option OpenFile
deriving DecidableEq, Repr

/-- Embedding of `DatasetInit::from_paths` (src/dataset.rs lines
41-125): scan every path, concatenate the per-path locator lists in
input order (first error aborts), and wrap the result with the worker
bound and the open-file semaphore capacity.  The fresh dataset has an
empty open-file cache. -/
def DatasetInit.from_paths (init : DatasetInit) (fs : FS) (paths : List FPath) :
    Except Error Dataset :=
  match collect_indexes fs init.check_integrity paths with
  | .error e => .error e
  | .ok idxs =>
    .ok { state := { record_indexes := idxs,
                     max_workers := init.max_workers.getD num_cpus,
                     open_file_semaphore := init.max_open_files },
          open_file := none }

/-- `Dataset::num_records` (src/dataset.rs lines 151-153). -/
def Dataset.num_records (d : Dataset) : Nat := d.state.record_indexes.length

/-- `impl Clone for Dataset` (src/dataset.rs lines 141-148): the shared
state is shared (`Arc::clone`), the open-file cache starts empty. -/
def Dataset.clone (d : Dataset) : Dataset := { state := d.state, open_file := none }

/-- Observable file-handle and limiter events emitted by the open-file
cache, in program order: opening a file, dropping (closing) a reader,
acquiring a semaphore permit, releasing one. -/
inductive FOp where
  | openF (p : FPath)
  | closeF (p : FPath)
  | acquire
  | release
deriving DecidableEq, Repr

/-- Permit-acquisition events of `Semaphore::acquire_owned` at
src/dataset.rs line 203 (and line 69): one acquire when a semaphore is
configured, none otherwise. -/
def acquire_ops (sem : Option Nat) : List FOp := if sem.isSome then [.acquire] else []

/-- Permit-release events of dropping an `OwnedSemaphorePermit`: one
release when a permit is held, none otherwise. -/
def release_op (held : Bool) : List FOp := if held then [.release] else []

/-- Events of `mem::drop(args)` at src/dataset.rs line 200: the cached
tuple's reader is closed, then its permit (if any) is released; nothing
happens when the cache was empty. -/
def drop_ops : Option OpenFile → List FOp
  | none => []
  | some of => .closeF of.path :: release_op of.permit

/-- The cache-miss path of `Dataset::open_file` (src/dataset.rs lines
199-208): after the previous cache entry has been dropped (its events
are `dropped`), acquire a fresh permit from the shared semaphore, then
open the path; on open failure the fresh permit is dropped (released)
and the cache stays empty. -/
def Dataset.openFresh (fs : FS) (d : Dataset) (path : FPath) (dropped : List FOp) :
    Except Error Unit × Dataset × List FOp :=
  let sem := d.state.open_file_semaphore
  match fs path with
  | none =>
    (.error .ioError, { d with open_file := none },
     dropped ++ acquire_ops sem ++ release_op sem.isSome)
  | some f =>
    (.ok (), { d with open_file := some { path := path, reader := (f, 0), permit := sem.isSome } },
     dropped ++ acquire_ops sem ++ [.openF path])

/-- Embedding of `Dataset::open_file` (src/dataset.rs lines 188-212).
The cached triple is taken; if its path equals the request it is put
back untouched (no I/O, no permit traffic), otherwise it is dropped and
a fresh permit and file are obtained.  Returns the outcome, the updated
handle, and the emitted events in program order. -/
def Dataset.openFile (fs : FS) (d : Dataset) (path : FPath) :
    Except Error Unit × Dataset × List FOp :=
  match d.open_file with
  | some of =>
    if of.path = path then (.ok (), { d with open_file := some of }, [])
    else Dataset.openFresh fs { d with open_file := none } path (drop_ops (some of))
  | none => Dataset.openFresh fs d path []

/-- Find the frame whose payload starts at byte `offset`, scanning from
position `pos`. -/
def frameAtAux : List Frame → Nat → Nat → Option Frame
  | [], _, _ => none
  | fr :: rest, pos, offset =>
    if pos + headerSize = offset then some fr
    else frameAtAux rest (pos + frameSize fr) offset

/-- The frame of `f` whose payload starts at `offset`, if any. -/
def frameAt (f : FileModel) (offset : Nat) : Option Frame :=
  frameAtAux f.frames 0 offset

/-- Whether the payload integrity field of the frame starting at
`offset` is valid (vacuously true off frame boundaries). -/
def integrityOkAt (f : FileModel) (offset : Nat) : Bool :=
  match frameAt f offset with
  | some fr => fr.dataOk
  | none => true

/-- Modelled from the spec: `read_frame_payload(len, checked)` for a
random-access read at an absolute offset: fail if the requested range
exceeds the file, fail on a corrupt payload checksum when (and only
when) `check` is set, otherwise return the bytes. -/
def read_record_data_at (f : FileModel) (offset len : Nat) (check : Bool) :
    Except Error (List Nat) :=
  if offset + len ≤ (fileBytes f).length then
    if check && !(integrityOkAt f offset) then .error .corruption
    else .ok (((fileBytes f).drop offset).take len)
  else .error .ioError

/-- Embedding of `try_read_record_at` (src/dataset.rs lines 243-251):
seek to the payload offset and read `len` bytes with integrity checking
disabled (`check_integrity = false` is hard-coded at line 248). -/
def try_read_record_at (f : FileModel) (offset len : Nat) : Except Error (List Nat) :=
  read_record_data_at f offset len false

/-- Embedding of `Dataset::get` (src/dataset.rs lines 155-170): an
out-of-range index is the explicit absent result `Ok(None)`; otherwise
the locator's file is made current via the open-file cache, the payload
is read unchecked at its offset, and the external codec decodes it.
Returns the outcome, the updated handle, and the emitted cache events. -/
def Dataset.get {T : Type} (fs : FS) (decode : List Nat → Except Error T)
    (d : Dataset) (i : Nat) : Except Error (Option T) × Dataset × List FOp :=
  match d.state.record_indexes[i]? with
  | none => (.ok none, d, [])
  | some loc =>
    match Dataset.openFile fs d loc.path with
    | (.error e, d1, ops) => (.error e, d1, ops)
    | (.ok _, d1, ops) =>
      match d1.open_file with
      | none => (.error .ioError, d1, ops)
      | some of =>
        match try_read_record_at of.reader.1 loc.offset loc.len with
        | .error e =>
          (.error e, { d1 with open_file := some { of with reader := (of.reader.1, loc.offset) } }, ops)
        | .ok bytes =>
          let d2 : Dataset :=
            { d1 with
              open_file := some { of with reader := (of.reader.1, loc.offset + loc.len + footerSize) } }
          match decode bytes with
          | .error e => (.error e, d2, ops)
          | .ok record => (.ok (some record), d2, ops)

/-- One step of the `try_unfold` closure inside `Dataset::stream`
(src/dataset.rs lines 177-185): call `get` at the cursor; an absent
result ends the stream, otherwise yield the record and advance the
cursor with the mutated handle. -/
def stream_step {T : Type} (fs : FS) (decode : List Nat → Except Error T)
    (st : Dataset × Nat) : Except Error (Option (T × (Dataset × Nat))) :=
  match Dataset.get fs decode st.1 st.2 with
  | (.error e, _, _) => .error e
  | (.ok none, _, _) => .ok none
  | (.ok (some record), d1, _) => .ok (some (record, (d1, st.2 + 1)))

/-- Drive a `try_unfold`-style stream to exhaustion, collecting the
yielded items; `fuel` bounds the number of steps (the callers below
always supply enough fuel, see `try_unfold_drive_fuel`). -/
def try_unfold_drive {S T : Type} (step : S → Except Error (Option (T × S))) :
    Nat → S → Except Error (List T)
  | 0, _ => .ok []
  | fuel + 1, st =>
    match step st with
    | .error e => .error e
    | .ok none => .ok []
    | .ok (some (x, st1)) => (try_unfold_drive step fuel st1).map (x :: ·)

/-- `Dataset::stream` (src/dataset.rs lines 172-186) driven to
exhaustion: the handle is cloned, then the `try_unfold` stream starting
at cursor 0 is consumed.  `num_records + 1` steps always suffice
because `get` is absent from index `num_records` on. -/
def Dataset.stream_run {T : Type} (fs : FS) (decode : List Nat → Except Error T)
    (d : Dataset) : Except Error (List T) :=
  try_unfold_drive (stream_step fs decode) (d.num_records + 1) (Dataset.clone d, 0)

/-- Following the spec's words (section 4.3): repeatedly call
`get(0), get(1), …` on one handle until the first absent result,
collecting the present values; an error aborts. -/
def get_seq_drive {T : Type} (fs : FS) (decode : List Nat → Except Error T) :
    Nat → Dataset → Nat → Except Error (List T)
  | 0, _, _ => .ok []
  | fuel + 1, d, i =>
    match Dataset.get fs decode d i with
    | (.ok none, _, _) => .ok []
    | (.error e, _, _) => .error e
    | (.ok (some x), d1, _) => (get_seq_drive fs decode fuel d1 (i + 1)).map (x :: ·)

/-- Following the spec's words (section 4.3): the reference sequence
`get(0), get(1), …` on a fresh clone until the first absent result. -/
def Dataset.get_seq_run {T : Type} (fs : FS) (decode : List Nat → Except Error T)
    (d : Dataset) : Except Error (List T) :=
  get_seq_drive fs decode (d.num_records + 1) (Dataset.clone d) 0

/-- Mark every frame's payload integrity field invalid, leaving the byte
image untouched (checksums are opaque placeholders in the byte model). -/
def corruptData (f : FileModel) : FileModel :=
  { f with frames := f.frames.map fun fr => { fr with dataOk := false } }

/-- Corrupt every file of a file system. -/
def corruptFS (fs : FS) : FS := fun p => (fs p).map corruptData

/-- Corrupt the file held in a handle's cache (the shared state and the
cache bookkeeping are untouched). -/
def corruptDataset (d : Dataset) : Dataset :=
  { d with open_file := d.open_file.map fun of =>
      { of with reader := (corruptData of.reader.1, of.reader.2) } }

/-- Abstract state of the shared open-file limiter together with the
population of permit holders (index-build tasks, src/dataset.rs lines
66-95, and dataset handles, lines 199-207).  Holders are
interchangeable, so only counts are tracked: `avail` is the semaphore's
free permit count, `acquiredCount` the holders that own a permit but
have no file open yet (or have already closed it), `openCount` the
holders with an open file. -/
structure SemState where
  avail : Nat
  acquiredCount : Nat
  openCount : Nat
deriving DecidableEq, Repr

/-- Transitions of the permit discipline common to both call sites:
a permit is acquired while free ones remain (`acquire_owned`, lines 69
and 203, suspending otherwise — no transition); a file is opened only by
a permit holder (lines 75 and 206 follow their acquisitions); a failed
open keeps the permit only until the error return drops it; a reader is
closed before its holder's permit is released (drop order of the cached
tuple, line 200, and of the scan task's stream state). -/
inductive SemStep : SemState → SemState → Prop
  | acquire (a q o : Nat) : SemStep ⟨a + 1, q, o⟩ ⟨a, q + 1, o⟩
  | openFile (a q o : Nat) : SemStep ⟨a, q + 1, o⟩ ⟨a, q, o + 1⟩
  | closeFile (a q o : Nat) : SemStep ⟨a, q, o + 1⟩ ⟨a, q + 1, o⟩
  | release (a q o : Nat) : SemStep ⟨a, q + 1, o⟩ ⟨a + 1, q, o⟩

/-- States reachable from a fresh limiter of capacity `cap`
(`Semaphore::new(num)`, src/dataset.rs line 55) with no permits held and
no files open. -/
def SemReachable (cap : Nat) (s : SemState) : Prop :=
  Relation.ReflTransGen SemStep ⟨cap, 0, 0⟩ s

/-- Effect of one observable cache event on the limiter state; `none`
when the event is not enabled (an acquire on an exhausted limiter
suspends; the other events are only emitted by holders in the matching
phase). -/
def applyOp (s : SemState) : FOp → Option SemState
  | .acquire =>
    match s.avail with
    | 0 => none
    | a + 1 => some ⟨a, s.acquiredCount + 1, s.openCount⟩
  | .release =>
    match s.acquiredCount with
    | 0 => none
    | q + 1 => some ⟨s.avail + 1, q, s.openCount⟩
  | .openF _ =>
    match s.acquiredCount with
    | 0 => none
    | q + 1 => some ⟨s.avail, q, s.openCount + 1⟩
  | .closeF _ =>
    match s.openCount with
    | 0 => none
    | o + 1 => some ⟨s.avail, s.acquiredCount + 1, o⟩

/-- Effect of a sequence of cache events on the limiter state. -/
def applyOps : SemState → List FOp → Option SemState
  | s, [] => some s
  | s, op :: rest =>
    match applyOp s op with
    | none => none
    | some s1 => applyOps s1 rest

/-- Completion events of the per-path scan tasks: task `i`'s result,
keyed by its input position `i`, in the order the tasks finished. -/
def completionsOf (fs : FS) (check : Bool) (paths : List FPath) (σ : List Nat) :
    List (Nat × Except Error (List RecordIndex)) :=
  σ.map fun i => (i, scan_path fs check (paths.getD i 0))

/-- Look up the buffered result of the task at input position `i`
(the slot keyed by `i`, not by completion order). -/
def lookup_slot (cs : List (Nat × Except Error (List RecordIndex))) (i : Nat) :
    Except Error (List RecordIndex) :=
  match cs.find? (fun c => c.1 == i) with
  | some c => c.2
  | none => .error .ioError

/-- Assemble buffered per-task results for the given input positions, in
that order, concatenating the locator lists; the first error in position
order aborts. -/
def assemble_aux (cs : List (Nat × Except Error (List RecordIndex))) :
    List Nat → Except Error (List RecordIndex)
  | [] => .ok []
  | i :: rest =>
    match lookup_slot cs i with
    | .error e => .error e
    | .ok l => (assemble_aux cs rest).map (l ++ ·)

/-- Assemble completed per-task results by input position `0, …, n-1`
regardless of the completion order in which they arrived. -/
def assemble_by_position (cs : List (Nat × Except Error (List RecordIndex))) (n : Nat) :
    Except Error (List RecordIndex) :=
  assemble_aux cs (List.range n)

/-- Test fixture: a healthy frame with payload `[1, 2, 3]`. -/
def frA0 : Frame := { payload := [1, 2, 3], lenOk := true, dataOk := true }

/-- Test fixture: a healthy frame with payload `[4, 5]`. -/
def frA1 : Frame := { payload := [4, 5], lenOk := true, dataOk := true }

/-- Test fixture: a frame whose payload checksum is invalid. -/
def frB0 : Frame := { payload := [6], lenOk := true, dataOk := false }

/-- Test fixture: a two-frame healthy container file. -/
def fileA : FileModel := { frames := [frA0, frA1], truncated := false }

/-- Test fixture: a one-frame container file with a corrupt payload
checksum. -/
def fileB : FileModel := { frames := [frB0], truncated := false }

/-- Test fixture: path 0 is `fileA`, path 1 is `fileB`, everything else
fails to open. -/
def fs0 : FS := fun p => if p = 0 then some fileA else if p = 1 then some fileB else none

/-- Test fixture: the identity codec on raw payload bytes. -/
def dec0 : List Nat → Except Error (List Nat) := fun b => .ok b

/-- Test fixture: the dataset over `fs0` with both files indexed
(`check_integrity = false`) and an open-file cap of 1. -/
def d0 : Dataset :=
  { state := { record_indexes := [⟨0, 12, 3⟩, ⟨0, 31, 2⟩, ⟨1, 12, 1⟩],
               max_workers := 4, open_file_semaphore := some 1 },
    open_file := none }

/-- Test fixture: a handle on `d0` with `fileA` currently cached. -/
def d0A : Dataset :=
  { d0 with open_file := some { path := 0, reader := (fileA, 19), permit := true } }

/-- Rebuilding a handle around its own cache contents is the identity. -/
theorem Dataset.eta_open_file (d : Dataset) (of : OpenFile) (h : d.open_file = some of) :
    ({ d with open_file := some of } : Dataset) = d := by
  cases d
  simp_all

/-- C4: `get` past the end of the index is the explicit absent result
`Ok(None)` — not an error — leaving the handle untouched, and it is
exactly the signal on which the `stream` step ends the stream. -/
theorem get_out_of_range {T : Type} (fs : FS) (decode : List Nat → Except Error T)
    (d : Dataset) (i : Nat) (h : d.num_records ≤ i) :
    Dataset.get fs decode d i = (.ok none, d, []) ∧
    stream_step fs decode (d, i) = .ok none := by
  have hnone : d.state.record_indexes[i]? = none := by
    rw [List.getElem?_eq_none_iff]
    exact h
  constructor
  · rw [Dataset.get, hnone]
  · rw [stream_step]
    simp only []
    rw [Dataset.get, hnone]

/-- C7: cloning a handle shares the state (index and limiter) and
starts with an empty open-file cache, so the clone's first access to
any path must acquire its own permit and open the file afresh, even if
the original currently has that path open. -/
theorem clone_fresh_cache (d : Dataset) :
    (Dataset.clone d).state = d.state ∧ (Dataset.clone d).open_file = none ∧
    ∀ (fs : FS) (P : FPath) (f : FileModel), fs P = some f →
      Dataset.openFile fs (Dataset.clone d) P =
        (.ok (), { state := d.state,
                   open_file := some { path := P, reader := (f, 0),
                                       permit := d.state.open_file_semaphore.isSome } },
         acquire_ops d.state.open_file_semaphore ++ [.openF P]) := by
  refine ⟨rfl, rfl, ?_⟩
  intro fs P f hf
  simp [Dataset.clone, Dataset.openFile, Dataset.openFresh, hf]

/-- C5: the single-slot cache discipline of `open_file`.  A request for
the cached path reuses the reader with no events at all (no open, no
permit traffic) and leaves the handle unchanged.  Any other request
first drops the previous triple (close, then release), then acquires a
fresh permit, then opens the path; the resulting cache holds exactly
the new triple on success and nothing on failure. -/
theorem open_file_cache_discipline (fs : FS) (d : Dataset) (P : FPath) :
    (∀ of, d.open_file = some of → of.path = P →
       Dataset.openFile fs d P = (.ok (), d, [])) ∧
    ((∀ of, d.open_file = some of → of.path ≠ P) →
       (∀ f, fs P = some f →
          Dataset.openFile fs d P =
            (.ok (),
             { d with open_file := some { path := P, reader := (f, 0),
                                          permit := d.state.open_file_semaphore.isSome } },
             drop_ops d.open_file ++ acquire_ops d.state.open_file_semaphore ++ [.openF P])) ∧
       (fs P = none →
          Dataset.openFile fs d P =
            (.error .ioError, { d with open_file := none },
             drop_ops d.open_file ++ acquire_ops d.state.open_file_semaphore
               ++ release_op d.state.open_file_semaphore.isSome))) := by
  constructor
  · intro of hof hpath
    have heta := Dataset.eta_open_file d of hof
    simp [Dataset.openFile, hof, hpath, heta]
  · intro hmiss
    cases hof : d.open_file with
    | none =>
      constructor
      · intro f hf
        simp [Dataset.openFile, hof, Dataset.openFresh, hf, drop_ops]
      · intro hf
        simp [Dataset.openFile, hof, Dataset.openFresh, hf, drop_ops]
    | some of =>
      have hne : of.path ≠ P := hmiss of hof
      constructor
      · intro f hf
        simp [Dataset.openFile, hof, hne, Dataset.openFresh, hf, drop_ops]
      · intro hf
        simp [Dataset.openFile, hof, hne, Dataset.openFresh, hf, drop_ops]

/-- C10: when switching the cache to a different path and the open
fails, the error is returned, the cache is left empty, the events show
the old triple dropped (close, release) before the fresh acquisition
and the fresh permit released by the error return; afterwards the
handle behaves exactly like a fresh clone on every `get`. -/
theorem open_fail_releases_and_stays_usable (fs : FS) (d : Dataset) (P : FPath)
    (of : OpenFile) (hof : d.open_file = some of) (hne : of.path ≠ P)
    (hfs : fs P = none) :
    Dataset.openFile fs d P =
      (.error .ioError, Dataset.clone d,
       FOp.closeF of.path :: (release_op of.permit
         ++ acquire_ops d.state.open_file_semaphore
         ++ release_op d.state.open_file_semaphore.isSome)) ∧
    ∀ (T : Type) (decode : List Nat → Except Error T) (i : Nat),
      Dataset.get fs decode (Dataset.openFile fs d P).2.1 i
        = Dataset.get fs decode (Dataset.clone d) i := by
  have h1 : Dataset.openFile fs d P =
      (.error .ioError, Dataset.clone d,
       FOp.closeF of.path :: (release_op of.permit
         ++ acquire_ops d.state.open_file_semaphore
         ++ release_op d.state.open_file_semaphore.isSome)) := by
    simp [Dataset.openFile, hof, hne, Dataset.openFresh, hfs, drop_ops, Dataset.clone]
  exact ⟨h1, fun T decode i => by rw [h1]⟩

/-- `open_file` never touches the shared state. -/
theorem Dataset.openFile_state (fs : FS) (d : Dataset) (P : FPath) :
    (Dataset.openFile fs d P).2.1.state = d.state := by
  rcases d with ⟨st, cache⟩
  cases cache with
  | none =>
    simp only [Dataset.openFile, Dataset.openFresh]
    cases fs P <;> rfl
  | some of =>
    simp only [Dataset.openFile]
    by_cases h : of.path = P
    · simp [h]
    · simp only [h, if_false, Dataset.openFresh]
      cases fs P <;> rfl

/-- `get` never touches the shared state (only the open-file cache). -/
theorem Dataset.get_state {T : Type} (fs : FS) (decode : List Nat → Except Error T)
    (d : Dataset) (i : Nat) : (Dataset.get fs decode d i).2.1.state = d.state := by
  cases hidx : d.state.record_indexes[i]? with
  | none => simp [Dataset.get, hidx]
  | some loc =>
    rcases hopen : Dataset.openFile fs d loc.path with ⟨res, d1, ops⟩
    have hst : d1.state = d.state := by
      have h1 := Dataset.openFile_state fs d loc.path
      rw [hopen] at h1
      exact h1
    simp only [Dataset.get, hidx, hopen]
    cases res with
    | error e => exact hst
    | ok u =>
      cases hcache : d1.open_file with
      | none => simp only [hcache]; exact hst
      | some of =>
        simp only [hcache]
        cases hread : try_read_record_at of.reader.1 loc.offset loc.len with
        | error e => simp only [hread]; exact hst
        | ok bytes =>
          simp only [hread]
          cases hdec : decode bytes with
          | error e => simp only [hdec]; exact hst
          | ok record => simp only [hdec]; exact hst

/-- A present `get` result implies the index was in range. -/
theorem Dataset.get_some_lt {T : Type} (fs : FS) (decode : List Nat → Except Error T)
    (d : Dataset) (i : Nat) (x : T)
    (h : (Dataset.get fs decode d i).1 = .ok (some x)) : i < d.num_records := by
  by_contra hge
  have hnone : d.state.record_indexes[i]? = none := by
    rw [List.getElem?_eq_none_iff]
    exact Nat.le_of_not_lt hge
  rw [Dataset.get, hnone] at h
  exact Option.noConfusion (Except.ok.inj h)

/-- An in-range `get` is never the absent result: it is an error or a
present record. -/
theorem Dataset.get_in_range_not_none {T : Type} (fs : FS)
    (decode : List Nat → Except Error T) (d : Dataset) (i : Nat)
    (h : i < d.num_records) : (Dataset.get fs decode d i).1 ≠ .ok none := by
  obtain ⟨loc, hloc⟩ : ∃ loc, d.state.record_indexes[i]? = some loc :=
    ⟨d.state.record_indexes[i], List.getElem?_eq_getElem h⟩
  rcases hopen : Dataset.openFile fs d loc.path with ⟨res, d1, ops⟩
  simp only [Dataset.get, hloc, hopen]
  cases res with
  | error e => simp
  | ok u =>
    cases hcache : d1.open_file with
    | none => simp [hcache]
    | some of =>
      simp only [hcache]
      cases hread : try_read_record_at of.reader.1 loc.offset loc.len with
      | error e => simp [hread]
      | ok bytes =>
        simp only [hread]
        cases hdec : decode bytes with
        | error e => simp [hdec]
        | ok record => simp [hdec]

/-- Driving the `try_unfold` stream of `Dataset::stream` is the same
computation as iterating `get` with increasing indices. -/
theorem try_unfold_drive_eq_get_seq {T : Type} (fs : FS)
    (decode : List Nat → Except Error T) :
    ∀ (fuel : Nat) (d : Dataset) (i : Nat),
      try_unfold_drive (stream_step fs decode) fuel (d, i) = get_seq_drive fs decode fuel d i := by
  intro fuel
  induction fuel with
  | zero => intro d i; rfl
  | succ n ih =>
    intro d i
    rw [try_unfold_drive, get_seq_drive, stream_step]
    rcases hget : Dataset.get fs decode d i with ⟨res, d1, ops⟩
    cases res with
    | error e => rfl
    | ok o => cases o with
      | none => rfl
      | some x => simp only [ih]

/-- A successfully exhausted stream yields one item per remaining index:
`num_records - i` items when started at cursor `i`, given enough fuel. -/
theorem stream_drive_length {T : Type} (fs : FS) (decode : List Nat → Except Error T) :
    ∀ (fuel : Nat) (d : Dataset) (i : Nat) (l : List T),
      d.num_records - i < fuel →
      try_unfold_drive (stream_step fs decode) fuel (d, i) = .ok l →
      l.length = d.num_records - i := by
  intro fuel
  induction fuel with
  | zero => intro d i l hf; omega
  | succ n ih =>
    intro d i l hf hrun
    rcases hget : Dataset.get fs decode d i with ⟨res, d1, ops⟩
    cases res with
    | error e =>
      have hstep : stream_step fs decode (d, i) = .error e := by
        simp only [stream_step, hget]
      rw [try_unfold_drive] at hrun
      simp only [hstep] at hrun
      exact absurd hrun (by simp)
    | ok o => cases o with
      | none =>
        have hstep : stream_step fs decode (d, i) = .ok none := by
          simp only [stream_step, hget]
        rw [try_unfold_drive] at hrun
        simp only [hstep] at hrun
        have hnot : ¬ i < d.num_records := fun hlt =>
          Dataset.get_in_range_not_none fs decode d i hlt (by rw [hget])
        obtain rfl : ([] : List T) = l := by simpa using hrun
        simp only [List.length_nil]
        omega
      | some x =>
        have hstep : stream_step fs decode (d, i) = .ok (some (x, (d1, i + 1))) := by
          simp only [stream_step, hget]
        rw [try_unfold_drive] at hrun
        simp only [hstep] at hrun
        have hlt : i < d.num_records := Dataset.get_some_lt fs decode d i x (by rw [hget])
        have hnum : d1.num_records = d.num_records := by
          have hst : d1.state = d.state := by
            have h1 := Dataset.get_state fs decode d i
            rw [hget] at h1
            exact h1
          simp only [Dataset.num_records, hst]
        rcases htail : try_unfold_drive (stream_step fs decode) n (d1, i + 1) with e | l1
        · rw [htail] at hrun
          exact absurd hrun (by simp [Except.map])
        · rw [htail] at hrun
          have hl : l = x :: l1 := by
            simpa [Except.map] using hrun.symm
          have hlen : l1.length = d1.num_records - (i + 1) :=
            ih d1 (i + 1) l1 (by omega) htail
          rw [hl]
          simp only [List.length_cons]
          omega

/-- C3: driving `stream()` to exhaustion is the same computation as
calling `get(0), get(1), …` on a fresh clone until the first absent
result, and a successful exhaustion yields exactly `num_records()`
items (in that shared order). -/
theorem stream_equiv_get_seq {T : Type} (fs : FS) (decode : List Nat → Except Error T)
    (d : Dataset) :
    Dataset.stream_run fs decode d = Dataset.get_seq_run fs decode d ∧
    ∀ l, Dataset.stream_run fs decode d = .ok l → l.length = d.num_records := by
  constructor
  · rw [Dataset.stream_run, Dataset.get_seq_run]
    exact try_unfold_drive_eq_get_seq fs decode (d.num_records + 1) (Dataset.clone d) 0
  · intro l hrun
    rw [Dataset.stream_run] at hrun
    have hclone : (Dataset.clone d).num_records = d.num_records := rfl
    have hlen := stream_drive_length fs decode (d.num_records + 1) (Dataset.clone d) 0 l
      (by rw [hclone]; omega) hrun
    rw [hclone] at hlen
    simpa using hlen

/-- The locator list has one entry per frame. -/
theorem locators_length (frames : List Frame) (pos : Nat) :
    (locators frames pos).length = frames.length := by
  induction frames generalizing pos with
  | nil => rfl
  | cons fr rest ih => simp [locators, ih]

/-- The `j`-th locator is the `j`-th frame's payload offset and length:
the scan output is in on-disk frame order. -/
theorem locators_getD (frames : List Frame) (pos : Nat) (j : Nat) (hj : j < frames.length) :
    (locators frames pos).getD j (0, 0)
      = (pos + frameStart frames j + headerSize,
         (frames.getD j { payload := [], lenOk := true, dataOk := true }).payload.length) := by
  induction frames generalizing pos j with
  | nil => simp at hj
  | cons fr rest ih =>
    cases j with
    | zero => simp [locators, frameStart]
    | succ j =>
      have hj2 : j < rest.length := by simpa using hj
      have hrec := ih (pos + frameSize fr) j hj2
      have hfs : frameStart (fr :: rest) (j + 1) = frameSize fr + frameStart rest j := by
        simp [frameStart, List.take_succ_cons]
      simp only [locators, List.getD_cons_succ, hrec, hfs, List.getD_cons_succ]
      rw [Prod.ext_iff]
      constructor
      · simp only []
        omega
      · rfl

/-- A scan over healthy frames (or any frames when checking is off)
succeeds and returns exactly the locator list. -/
theorem record_index_collect_ok (check : Bool) (frames : List Frame) (pos : Nat)
    (hchk : ∀ fr ∈ frames, check = true → fr.lenOk = true ∧ fr.dataOk = true) :
    record_index_collect check false frames pos = .ok (locators frames pos) := by
  induction frames generalizing pos with
  | nil => cases check <;> simp [record_index_collect, try_read_len, locators]
  | cons fr rest ih =>
    have htail : ∀ fr2 ∈ rest, check = true → fr2.lenOk = true ∧ fr2.dataOk = true :=
      fun fr2 hm => hchk fr2 (List.mem_cons_of_mem fr hm)
    have harith : pos + headerSize + fr.payload.length + footerSize = pos + frameSize fr := by
      simp only [frameSize]
      omega
    cases check with
    | false =>
      have hstep : record_index_collect false false (fr :: rest) pos
          = (record_index_collect false false rest
              (pos + headerSize + fr.payload.length + footerSize)).map
              ((pos + headerSize, fr.payload.length) :: ·) := by
        rw [record_index_collect.eq_def]
        simp [try_read_len, try_read_record_data]
      rw [hstep, harith, ih (pos + frameSize fr) htail]
      rfl
    | true =>
      obtain ⟨hlen, hdata⟩ := hchk fr (List.mem_cons_self fr rest) rfl
      have hstep : record_index_collect true false (fr :: rest) pos
          = (record_index_collect true false rest
              (pos + headerSize + fr.payload.length + footerSize)).map
              ((pos + headerSize, fr.payload.length) :: ·) := by
        rw [record_index_collect.eq_def]
        simp [try_read_len, try_read_record_data, hlen, hdata]
      rw [hstep, harith, ih (pos + frameSize fr) htail]
      rfl

/-- C8: the per-file scan loop of `record_index_stream`: a `None` frame
length ends the scan cleanly (the `frames = []` case yields `ok []`),
and otherwise each step records (current position after the length
field, frame length) and skips the payload; the produced locators are
exactly the frames' payload offsets and lengths, in on-disk order. -/
theorem scan_loop_correct (frames : List Frame) (pos : Nat) (check : Bool)
    (hchk : ∀ fr ∈ frames, check = true → fr.lenOk = true ∧ fr.dataOk = true) :
    record_index_collect check false frames pos = .ok (locators frames pos) ∧
    (locators frames pos).length = frames.length ∧
    ∀ j, j < frames.length →
      (locators frames pos).getD j (0, 0)
        = (pos + frameStart frames j + headerSize,
           (frames.getD j { payload := [], lenOk := true, dataOk := true }).payload.length) :=
  ⟨record_index_collect_ok check frames pos hchk, locators_length frames pos,
   fun j hj => locators_getD frames pos j hj⟩

/-- Invalidating payload checksums does not change a file's byte image
(the checksum fields are opaque placeholders). -/
theorem fileBytes_corruptData (f : FileModel) : fileBytes (corruptData f) = fileBytes f := by
  have hcomp : frameBytes ∘ (fun fr => { fr with dataOk := false }) = frameBytes := by
    funext fr
    rfl
  simp [fileBytes, corruptData, List.map_map, hcomp]

/-- The unchecked random-access read of `try_read_record_at` is blind to
payload-checksum validity. -/
theorem try_read_record_at_corrupt (f : FileModel) (offset len : Nat) :
    try_read_record_at (corruptData f) offset len = try_read_record_at f offset len := by
  simp [try_read_record_at, read_record_data_at, fileBytes_corruptData]

/-- The open-file cache is blind to checksum validity: it commutes with
corrupting the file system and the cached reader. -/
theorem openFile_corrupt (fs : FS) (d : Dataset) (P : FPath) :
    Dataset.openFile (corruptFS fs) (corruptDataset d) P
      = ((Dataset.openFile fs d P).1, corruptDataset (Dataset.openFile fs d P).2.1,
         (Dataset.openFile fs d P).2.2) := by
  rcases d with ⟨st, cache⟩
  cases cache with
  | none =>
    cases hf : fs P with
    | none =>
      simp [Dataset.openFile, Dataset.openFresh, corruptFS, hf, corruptDataset]
    | some f =>
      simp [Dataset.openFile, Dataset.openFresh, corruptFS, hf, corruptDataset]
  | some of =>
    by_cases hp : of.path = P
    · simp [Dataset.openFile, corruptDataset, hp]
    · cases hf : fs P with
      | none =>
        simp [Dataset.openFile, Dataset.openFresh, corruptFS, hf, corruptDataset, hp, drop_ops]
      | some f =>
        simp [Dataset.openFile, Dataset.openFresh, corruptFS, hf, corruptDataset, hp, drop_ops]

/-- `get` is blind to checksum validity: its outcome and events are
unchanged, and its handle tracks the corruption pointwise. -/
theorem get_corrupt {T : Type} (fs : FS) (decode : List Nat → Except Error T)
    (d : Dataset) (i : Nat) :
    Dataset.get (corruptFS fs) decode (corruptDataset d) i
      = ((Dataset.get fs decode d i).1, corruptDataset (Dataset.get fs decode d i).2.1,
         (Dataset.get fs decode d i).2.2) := by
  have hst : (corruptDataset d).state = d.state := rfl
  cases hloc : d.state.record_indexes[i]? with
  | none =>
    have hloc2 : (corruptDataset d).state.record_indexes[i]? = none := by rw [hst, hloc]
    simp [Dataset.get, hloc, hloc2, corruptDataset]
  | some loc =>
    have hloc2 : (corruptDataset d).state.record_indexes[i]? = some loc := by rw [hst, hloc]
    rcases hopen : Dataset.openFile fs d loc.path with ⟨res, d1, ops⟩
    have hopen2 : Dataset.openFile (corruptFS fs) (corruptDataset d) loc.path
        = (res, corruptDataset d1, ops) := by
      rw [openFile_corrupt, hopen]
    simp only [Dataset.get, hloc, hloc2, hopen, hopen2]
    cases res with
    | error e => rfl
    | ok u =>
      cases hcache : d1.open_file with
      | none =>
        have hcache2 : (corruptDataset d1).open_file = none := by
          simp [corruptDataset, hcache]
        simp only [hcache, hcache2]
      | some of =>
        have hcache2 : (corruptDataset d1).open_file
            = some { of with reader := (corruptData of.reader.1, of.reader.2) } := by
          simp [corruptDataset, hcache]
        simp only [hcache, hcache2]
        have hread := try_read_record_at_corrupt of.reader.1 loc.offset loc.len
        cases hr : try_read_record_at of.reader.1 loc.offset loc.len with
        | error e =>
          rw [hr] at hread
          simp only [hread, hr]
          simp [corruptDataset, corruptData, hcache]
        | ok bytes =>
          rw [hr] at hread
          simp only [hread, hr]
          cases hdec : decode bytes with
          | error e =>
            simp only [hdec]
            simp [corruptDataset, corruptData, hcache]
          | ok record =>
            simp only [hdec]
            simp [corruptDataset, corruptData, hcache]

/-- A scan that succeeds with integrity checking on yields the same
locators with checking off: the flag affects error detection only,
never offsets or lengths. -/
theorem record_index_collect_uncheck (frames : List Frame) :
    ∀ (trunc : Bool) (pos : Nat) (l : List (Nat × Nat)),
      record_index_collect true trunc frames pos = .ok l →
      record_index_collect false trunc frames pos = .ok l := by
  induction frames with
  | nil =>
    intro trunc pos l h
    cases trunc with
    | false => exact h
    | true =>
      rw [record_index_collect.eq_def] at h
      simp [try_read_len] at h
  | cons fr rest ih =>
    intro trunc pos l h
    cases hlen : fr.lenOk with
    | false =>
      rw [record_index_collect.eq_def] at h
      simp [try_read_len, hlen] at h
    | true =>
      cases hdata : fr.dataOk with
      | false =>
        rw [record_index_collect.eq_def] at h
        simp [try_read_len, try_read_record_data, hlen, hdata] at h
      | true =>
        have hstep : record_index_collect true trunc (fr :: rest) pos
            = (record_index_collect true trunc rest
                (pos + headerSize + fr.payload.length + footerSize)).map
                ((pos + headerSize, fr.payload.length) :: ·) := by
          rw [record_index_collect.eq_def]
          simp [try_read_len, try_read_record_data, hlen, hdata]
        rw [hstep] at h
        rcases htail : record_index_collect true trunc rest
            (pos + headerSize + fr.payload.length + footerSize) with e | l1
        · rw [htail] at h
          exact absurd h (by simp [Except.map])
        · rw [htail] at h
          have hl : l = (pos + headerSize, fr.payload.length) :: l1 := by
            simpa [Except.map] using h.symm
        
          have hfalse : record_index_collect false trunc (fr :: rest) pos
              = (record_index_collect false trunc rest
                  (pos + headerSize + fr.payload.length + footerSize)).map
                  ((pos + headerSize, fr.payload.length) :: ·) := by
            rw [record_index_collect.eq_def]
            simp [try_read_len, try_read_record_data]
          rw [hfalse, ih trunc _ l1 htail, hl]
          rfl

/-- A per-path scan that succeeds with checking on yields the same
locator list with checking off. -/
theorem scan_path_uncheck (fs : FS) (p : FPath) (l : List RecordIndex)
    (h : scan_path fs true p = .ok l) : scan_path fs false p = .ok l := by
  cases hf : fs p with
  | none =>
    simp only [scan_path, hf] at h
    exact absurd h (by simp)
  | some f =>
    simp only [scan_path, hf] at h
    simp only [scan_path, hf]
    rcases hcol : record_index_collect true f.truncated f.frames 0 with e | pls
    · rw [hcol] at h
      exact absurd h (by simp [Except.map])
    · rw [hcol] at h
      rw [record_index_collect_uncheck f.frames f.truncated 0 pls hcol]
      exact h

/-- C9: frame integrity is never re-checked at read time.  `get` is
entirely blind to payload-checksum validity (outcome, events, and — up
to the corruption itself — the handle are unchanged when every checksum
is invalidated); the read `get` performs succeeds at a corrupt offset
where a checked read would fail; and the build-time flag only detects
errors: a build-time scan that passes with `check_integrity = true`
yields the identical locators with `check_integrity = false`. -/
theorem read_time_never_rechecks {T : Type} (fs : FS) (decode : List Nat → Except Error T)
    (d : Dataset) (i : Nat) :
    Dataset.get (corruptFS fs) decode (corruptDataset d) i
      = ((Dataset.get fs decode d i).1, corruptDataset (Dataset.get fs decode d i).2.1,
         (Dataset.get fs decode d i).2.2) ∧
    (∀ (f : FileModel) (offset len : Nat), offset + len ≤ (fileBytes f).length →
        integrityOkAt f offset = false →
        read_record_data_at f offset len true = .error .corruption ∧
        try_read_record_at f offset len = .ok (((fileBytes f).drop offset).take len)) ∧
    (∀ (p : FPath) (l : List RecordIndex),
        scan_path fs true p = .ok l → scan_path fs false p = .ok l) := by
  refine ⟨get_corrupt fs decode d i, ?_, fun p l h => scan_path_uncheck fs p l h⟩
  intro f offset len hle hbad
  constructor
  · rw [read_record_data_at, if_pos hle, hbad]
    rfl
  · rw [try_read_record_at, read_record_data_at, if_pos hle]
    rfl

/-- Looking up input position `i` among the buffered completions gives
that task's own result, wherever it finished in the completion order. -/
theorem lookup_slot_completions (fs : FS) (check : Bool) (paths : List FPath)
    (σ : List Nat) (i : Nat) (hmem : i ∈ σ) :
    lookup_slot (completionsOf fs check paths σ) i
      = scan_path fs check (paths.getD i 0) := by
  induction σ with
  | nil => simp at hmem
  | cons j rest ih =>
    by_cases hj : j = i
    · subst hj
      simp [lookup_slot, completionsOf, List.find?]
    · have hmem2 : i ∈ rest := by
        rcases List.mem_cons.mp hmem with h | h
        · exact absurd h.symm hj
        · exact h
      have hfind : ((j, scan_path fs check (paths.getD j 0)).1 == i) = false := by
        simpa using hj
      simp only [completionsOf, List.map_cons, lookup_slot, List.find?, hfind]
      exact ih hmem2

/-- Assembling buffered results for consecutive input positions equals
the sequential input-order collection. -/
theorem assemble_aux_range (fs : FS) (check : Bool)
    (cs : List (Nat × Except Error (List RecordIndex))) :
    ∀ (paths : List FPath) (o : Nat),
      (∀ k, k < paths.length → lookup_slot cs (o + k) = scan_path fs check (paths.getD k 0)) →
      assemble_aux cs (List.range' o paths.length) = collect_indexes fs check paths := by
  intro paths
  induction paths with
  | nil => intro o hlk; rfl
  | cons p rest ih =>
    intro o hlk
    have h0 : lookup_slot cs o = scan_path fs check p := by
      have := hlk 0 (by simp)
      simpa using this
    have hrest : ∀ k, k < rest.length →
        lookup_slot cs (o + 1 + k) = scan_path fs check (rest.getD k 0) := by
      intro k hk
      have h1 := hlk (k + 1) (by simpa using Nat.succ_lt_succ hk)
      have h2 : o + (k + 1) = o + 1 + k := by omega
      rw [h2] at h1
      simpa using h1
    have hr : List.range' o (p :: rest).length = o :: List.range' (o + 1) rest.length := by
      simp only [List.length_cons]
      exact List.range'_succ o rest.length 1
    rw [hr]
    simp only [assemble_aux, h0]
    rw [ih (o + 1) hrest]
    cases hscan : scan_path fs check p with
    | error e => simp [collect_indexes, hscan]
    | ok l => simp [collect_indexes, hscan]

/-- A successful input-order collection is the concatenation of the
per-path locator lists, in input-path order. -/
theorem collect_indexes_ok_flatten (fs : FS) (check : Bool) :
    ∀ (paths : List FPath) (L : List RecordIndex),
      collect_indexes fs check paths = .ok L →
      ∃ ls : List (List RecordIndex), ls.length = paths.length ∧
        (∀ j, j < paths.length → scan_path fs check (paths.getD j 0) = .ok (ls.getD j [])) ∧
        L = ls.flatten := by
  intro paths
  induction paths with
  | nil =>
    intro L h
    refine ⟨[], rfl, by simp, ?_⟩
    simpa [collect_indexes] using h.symm
  | cons p rest ih =>
    intro L h
    rw [collect_indexes] at h
    cases hscan : scan_path fs check p with
    | error e =>
      rw [hscan] at h
      exact absurd h (by simp)
    | ok head =>
      rw [hscan] at h
      cases htail : collect_indexes fs check rest with
      | error e =>
        rw [htail] at h
        exact absurd h (by simp [Except.map])
      | ok L1 =>
        rw [htail] at h
        obtain ⟨ls, hlen, hsc, hfl⟩ := ih L1 htail
        refine ⟨head :: ls, by simp [hlen], ?_, ?_⟩
        · intro j hj
          cases j with
          | zero => simpa using hscan
          | succ j =>
            have := hsc j (by simpa using hj)
            simpa using this
        · have hL : L = head ++ L1 := by
            simpa [Except.map] using h.symm
          rw [hL, hfl]
          simp

/-- C1: the index of a successfully built dataset is the concatenation
of the per-path locator lists in original input-path order, and the
position-keyed assembly of the per-path task results yields exactly
that index for every completion order (any permutation of the task
positions): completion order never affects the output. -/
theorem index_order_deterministic (init : DatasetInit) (fs : FS) (paths : List FPath)
    (σ : List Nat) (hσ : σ.Perm (List.range paths.length)) (d : Dataset)
    (hok : init.from_paths fs paths = .ok d) :
    assemble_by_position (completionsOf fs init.check_integrity paths σ) paths.length
      = .ok d.state.record_indexes ∧
    ∃ ls : List (List RecordIndex), ls.length = paths.length ∧
      (∀ j, j < paths.length →
        scan_path fs init.check_integrity (paths.getD j 0) = .ok (ls.getD j [])) ∧
      d.state.record_indexes = ls.flatten := by
  have hcol : collect_indexes fs init.check_integrity paths = .ok d.state.record_indexes := by
    rw [DatasetInit.from_paths] at hok
    cases hc : collect_indexes fs init.check_integrity paths with
    | error e =>
      rw [hc] at hok
      exact absurd hok (by simp)
    | ok idxs =>
      rw [hc] at hok
      have hd : d = { state := { record_indexes := idxs,
                                 max_workers := init.max_workers.getD num_cpus,
                                 open_file_semaphore := init.max_open_files },
                      open_file := none } := by
        simpa using hok.symm
      rw [hd]
  have hasm : assemble_by_position (completionsOf fs init.check_integrity paths σ) paths.length
      = collect_indexes fs init.check_integrity paths := by
    rw [assemble_by_position, List.range_eq_range' paths.length]
    apply assemble_aux_range
    intro k hk
    rw [Nat.zero_add]
    exact lookup_slot_completions fs init.check_integrity paths σ k
      ((hσ.mem_iff).mpr (List.mem_range.mpr hk))
  obtain ⟨ls, h1, h2, h3⟩ := collect_indexes_ok_flatten fs init.check_integrity paths
    d.state.record_indexes hcol
  exact ⟨by rw [hasm, hcol], ls, h1, h2, h3⟩

/-- The input-order collection reports the error of the first failing
path when every earlier path scans cleanly. -/
theorem collect_indexes_first_error (fs : FS) (check : Bool) (e : Error) :
    ∀ (paths : List FPath) (i : Nat), i < paths.length →
      scan_path fs check (paths.getD i 0) = .error e →
      (∀ j, j < i → ∃ l, scan_path fs check (paths.getD j 0) = .ok l) →
      collect_indexes fs check paths = .error e := by
  intro paths
  induction paths with
  | nil => intro i hi; simp at hi
  | cons p rest ih =>
    intro i hi he hfirst
    cases i with
    | zero =>
      have hp : scan_path fs check p = .error e := by simpa using he
      simp [collect_indexes, hp]
    | succ i =>
      obtain ⟨l, hl⟩ := hfirst 0 (Nat.succ_pos i)
      have hp : scan_path fs check p = .ok l := by simpa using hl
      have htail : collect_indexes fs check rest = .error e := by
        refine ih i (by simpa using hi) (by simpa using he) ?_
        intro j hj
        have := hfirst (j + 1) (by omega)
        simpa using this
      simp [collect_indexes, hp, htail, Except.map]

/-- C2: if the path at position `i` fails to scan (I/O or corruption)
and every earlier path scans cleanly, the whole build fails with that
error: no dataset and no partial index are ever produced from a failed
build. -/
theorem from_paths_fail_fast (init : DatasetInit) (fs : FS) (paths : List FPath)
    (i : Nat) (e : Error) (hi : i < paths.length)
    (he : scan_path fs init.check_integrity (paths.getD i 0) = .error e)
    (hfirst : ∀ j, j < i → ∃ l, scan_path fs init.check_integrity (paths.getD j 0) = .ok l) :
    init.from_paths fs paths = .error e := by
  have hcol := collect_indexes_first_error fs init.check_integrity e paths i hi he hfirst
  rw [DatasetInit.from_paths, hcol]

/-- Permit-counting invariant: free permits plus held permits (with or
without an open file) always total the configured capacity. -/
theorem sem_invariant (cap : Nat) (s : SemState) (h : SemReachable cap s) :
    s.avail + s.acquiredCount + s.openCount = cap := by
  induction h with
  | refl => rfl
  | tail hsteps hstep ih =>
    cases hstep with
    | acquire a q o => simp_all; omega
    | openFile a q o => simp_all; omega
    | closeFile a q o => simp_all; omega
    | release a q o => simp_all; omega

/-- C6: under the permit discipline shared by the index-build tasks and
the read-time open-file cache, no reachable state of a limiter of
capacity `cap` ever has more than `cap` files open; in particular with
`max_open_files = 1` two files are never open at the same time. -/
theorem open_files_bounded (cap : Nat) (s : SemState) (h : SemReachable cap s) :
    s.openCount ≤ cap ∧ (cap = 1 → s.openCount ≤ 1) := by
  have hinv := sem_invariant cap s h
  omega

/-- Every enabled cache event is a transition of the permit
discipline. -/
theorem applyOp_step (s s1 : SemState) (op : FOp) (h : applyOp s op = some s1) :
    SemStep s s1 := by
  rcases s with ⟨a, q, o⟩
  cases op with
  | acquire =>
    cases a with
    | zero => exact absurd h (by simp [applyOp])
    | succ a =>
      have : s1 = ⟨a, q + 1, o⟩ := by simpa [applyOp] using h.symm
      rw [this]
      exact SemStep.acquire a q o
  | release =>
    cases q with
    | zero => exact absurd h (by simp [applyOp])
    | succ q =>
      have : s1 = ⟨a + 1, q, o⟩ := by simpa [applyOp] using h.symm
      rw [this]
      exact SemStep.release a q o
  | openF p =>
    cases q with
    | zero => exact absurd h (by simp [applyOp])
    | succ q =>
      have : s1 = ⟨a, q, o + 1⟩ := by simpa [applyOp] using h.symm
      rw [this]
      exact SemStep.openFile a q o
  | closeF p =>
    cases o with
    | zero => exact absurd h (by simp [applyOp])
    | succ o =>
      have : s1 = ⟨a, q + 1, o⟩ := by simpa [applyOp] using h.symm
      rw [this]
      exact SemStep.closeFile a q o

/-- A whole enabled event sequence is a chain of permit-discipline
transitions. -/
theorem applyOps_steps (ops : List FOp) :
    ∀ (s s1 : SemState), applyOps s ops = some s1 →
      Relation.ReflTransGen SemStep s s1 := by
  induction ops with
  | nil =>
    intro s s1 h
    have : s = s1 := by simpa [applyOps] using h
    rw [this]
  | cons op rest ih =>
    intro s s1 h
    rw [applyOps] at h
    cases hop : applyOp s op with
    | none =>
      rw [hop] at h
      exact absurd h (by simp)
    | some s2 =>
      rw [hop] at h
      exact Relation.ReflTransGen.head (applyOp_step s s2 op hop) (ih s2 s1 h)

/-- The event trace a cache switch emits (close old, release old permit,
acquire fresh permit, open new file) is enabled from every state in
which the switching holder has its file open, and it returns the
limiter to the same counts: the discipline of `open_file` never loses
or duplicates permits. -/
theorem openFile_switch_trace (fs : FS) (d : Dataset) (P : FPath) (of : OpenFile)
    (f : FileModel) (hof : d.open_file = some of) (hne : of.path ≠ P)
    (hsem : d.state.open_file_semaphore.isSome = true) (hpermit : of.permit = true)
    (hf : fs P = some f) (a q o : Nat) :
    applyOps ⟨a, q, o + 1⟩ (Dataset.openFile fs d P).2.2 = some ⟨a, q, o + 1⟩ := by
  have htrace : (Dataset.openFile fs d P).2.2
      = [FOp.closeF of.path, FOp.release, FOp.acquire, FOp.openF P] := by
    simp [Dataset.openFile, hof, hne, Dataset.openFresh, hf, drop_ops, release_op,
      acquire_ops, hpermit, hsem]
  rw [htrace]
  simp [applyOps, applyOp]

/-- Witness for C1: with two input paths and the reversed completion
order, the position-keyed assembly still reproduces the built index. -/
theorem index_order_deterministic_witness :
    assemble_by_position (completionsOf fs0 false [0, 1] [1, 0]) 2
      = .ok d0.state.record_indexes ∧
    ∃ ls : List (List RecordIndex), ls.length = 2 ∧
      (∀ j, j < 2 → scan_path fs0 false ([0, 1].getD j 0) = .ok (ls.getD j [])) ∧
      d0.state.record_indexes = ls.flatten :=
  index_order_deterministic
    ({ check_integrity := false, max_open_files := some 1, max_workers := none } : DatasetInit)
    fs0 [0, 1] [1, 0] (by decide) d0 (by decide)

/-- Witness for C2: a corrupt second file aborts the checked build with
the corruption error. -/
theorem from_paths_fail_fast_witness :
    DatasetInit.from_paths
      ({ check_integrity := true, max_open_files := none, max_workers := none } : DatasetInit)
      fs0 [0, 1] = .error .corruption :=
  from_paths_fail_fast
    ({ check_integrity := true, max_open_files := none, max_workers := none } : DatasetInit)
    fs0 [0, 1] 1 .corruption (by decide) (by decide)
    (fun j hj => by
      have hj0 : j = 0 := by omega
      rw [hj0]
      exact ⟨[⟨0, 12, 3⟩, ⟨0, 31, 2⟩], by decide⟩)

/-- Witness for C3: exhausting the stream of the three-record fixture
yields its three records. -/
theorem stream_equiv_get_seq_witness :
    ([[1, 2, 3], [4, 5], [6]] : List (List Nat)).length = d0.num_records :=
  (stream_equiv_get_seq fs0 dec0 d0).2 [[1, 2, 3], [4, 5], [6]] (by decide)

/-- Witness for C4: index 3 of the three-record fixture is the absent
result and ends the stream. -/
theorem get_out_of_range_witness :
    Dataset.get fs0 dec0 d0 3 = (.ok none, d0, []) ∧
    stream_step fs0 dec0 (d0, 3) = .ok none :=
  get_out_of_range fs0 dec0 d0 3 (by decide)

/-- Witness for C5: requesting the already-cached path reuses the
reader with no events. -/
theorem open_file_cache_discipline_witness :
    Dataset.openFile fs0 d0A 0 = (.ok (), d0A, []) :=
  (open_file_cache_discipline fs0 d0A 0).1
    { path := 0, reader := (fileA, 19), permit := true } rfl rfl

/-- Witness for C6: the reachable state with one file open under a
capacity-1 limiter respects the cap. -/
theorem open_files_bounded_witness :
    SemState.openCount ⟨0, 0, 1⟩ ≤ 1 ∧ (1 = 1 → SemState.openCount ⟨0, 0, 1⟩ ≤ 1) :=
  open_files_bounded 1 ⟨0, 0, 1⟩
    (Relation.ReflTransGen.tail
      (Relation.ReflTransGen.tail Relation.ReflTransGen.refl (SemStep.acquire 0 0 0))
      (SemStep.openFile 0 0 0))

/-- Witness for C7: the clone of a handle with `fileA` cached starts
empty and re-acquires and re-opens on first access. -/
theorem clone_fresh_cache_witness :
    (Dataset.clone d0A).state = d0A.state ∧ (Dataset.clone d0A).open_file = none ∧
    Dataset.openFile fs0 (Dataset.clone d0A) 0 =
      (.ok (), { state := d0A.state,
                 open_file := some { path := 0, reader := (fileA, 0), permit := true } },
       [FOp.acquire, FOp.openF 0]) :=
  ⟨(clone_fresh_cache d0A).1, (clone_fresh_cache d0A).2.1,
   (clone_fresh_cache d0A).2.2 fs0 0 fileA rfl⟩

/-- Witness for C8: scanning the two-frame fixture produces its two
locators, the second at offset 31 with length 2. -/
theorem scan_loop_correct_witness :
    record_index_collect true false fileA.frames 0 = .ok (locators fileA.frames 0) ∧
    (locators fileA.frames 0).getD 1 (0, 0)
      = (0 + frameStart fileA.frames 1 + headerSize,
         ((fileA.frames.getD 1 { payload := [], lenOk := true, dataOk := true }).payload).length) :=
  ⟨(scan_loop_correct fileA.frames 0 true (by decide)).1,
   (scan_loop_correct fileA.frames 0 true (by decide)).2.2 1 (by decide)⟩

/-- Witness for C9: `get` is unchanged by corrupting every checksum of
the fixture, while a checked read at the corrupt frame's offset fails
and the unchecked read succeeds, and the checked build of the healthy
file equals the unchecked build. -/
theorem read_time_never_rechecks_witness :
    Dataset.get (corruptFS fs0) dec0 (corruptDataset d0) 0
      = ((Dataset.get fs0 dec0 d0 0).1, corruptDataset (Dataset.get fs0 dec0 d0 0).2.1,
         (Dataset.get fs0 dec0 d0 0).2.2) ∧
    (read_record_data_at fileB 12 1 true = .error .corruption ∧
     try_read_record_at fileB 12 1 = .ok (((fileBytes fileB).drop 12).take 1)) ∧
    scan_path fs0 false 0 = .ok [⟨0, 12, 3⟩, ⟨0, 31, 2⟩] :=
  ⟨(read_time_never_rechecks fs0 dec0 d0 0).1,
   (read_time_never_rechecks fs0 dec0 d0 0).2.1 fileB 12 1 (by decide) (by decide),
   (read_time_never_rechecks fs0 dec0 d0 0).2.2 0 [⟨0, 12, 3⟩, ⟨0, 31, 2⟩] (by decide)⟩

/-- Witness for C10: switching the fixture handle to an unopenable path
fails, drops both permits, empties the cache, and leaves the handle
behaving like a fresh clone. -/
theorem open_fail_releases_and_stays_usable_witness :
    Dataset.openFile fs0 d0A 5 =
      (.error .ioError, Dataset.clone d0A,
       FOp.closeF 0 :: (release_op true ++ acquire_ops (some 1) ++ release_op true)) ∧
    Dataset.get fs0 dec0 (Dataset.openFile fs0 d0A 5).2.1 0
      = Dataset.get fs0 dec0 (Dataset.clone d0A) 0 :=
  ⟨(open_fail_releases_and_stays_usable fs0 d0A 5
      { path := 0, reader := (fileA, 19), permit := true } rfl (by decide) rfl).1,
   (open_fail_releases_and_stays_usable fs0 d0A 5
      { path := 0, reader := (fileA, 19), permit := true } rfl (by decide) rfl).2
     (List Nat) dec0 0⟩
